import Mathlib

/-!
Verification development for the NBA play-type stats repository
(`playerstyles1.py`, `scraper_backend.py`, `flask_backend.py`).

The Python data model is shallowly embedded: a pandas `DataFrame` becomes a
list of column names plus a list of rows (lists of cells); Python exceptions
become `Except PyError`; Flask handler return values (a bare response or a
`(response, code)` tuple) become an explicit sum.  Unicode facilities used by
`normalize_text` (`str.lower`, NFD decomposition, the `Mn` category and
`str.split` whitespace) are modelled by explicit finite tables over `Char`
covering the ASCII range and the accented Latin letters that occur in the
data, with the identity as default; floating point numbers are modelled by
`ℚ` plus an explicit NaN marker.  Wall-clock readings (`time.time`) and the
LLM crew execution are outside the model; the latter enters `ai_analysis` as
an explicit outcome parameter.
-/

/-! ## Character-level model of the Python text primitives -/

/-- Pairs (uppercase, lowercase) modelling `str.lower`: the ASCII letters plus
the accented Latin capitals occurring in the scraped data.  Characters not in
the table are left unchanged. -/
def lowerTable : List (Char × Char) :=
  [('A', 'a'), ('B', 'b'), ('C', 'c'), ('D', 'd'), ('E', 'e'), ('F', 'f'),
   ('G', 'g'), ('H', 'h'), ('I', 'i'), ('J', 'j'), ('K', 'k'), ('L', 'l'),
   ('M', 'm'), ('N', 'n'), ('O', 'o'), ('P', 'p'), ('Q', 'q'), ('R', 'r'),
   ('S', 's'), ('T', 't'), ('U', 'u'), ('V', 'v'), ('W', 'w'), ('X', 'x'),
   ('Y', 'y'), ('Z', 'z'),
   ('Á', 'á'), ('É', 'é'), ('Í', 'í'), ('Ó', 'ó'), ('Ú', 'ú'),
   ('Ü', 'ü'), ('Ö', 'ö'), ('Ñ', 'ñ'),
   ('Č', 'č'), ('Ć', 'ć'), ('Š', 'š'), ('Ž', 'ž'), ('Đ', 'đ')]

/-- Python `str.lower` on one character (table-driven, identity by default). -/
def pyLower (c : Char) : Char := (lowerTable.lookup c).getD c

/-- combining acute accent U+0301 -/
def accAcute : Char := Char.ofNat 769

/-- combining tilde U+0303 -/
def accTilde : Char := Char.ofNat 771

/-- combining diaeresis U+0308 -/
def accDiaer : Char := Char.ofNat 776

/-- combining caron U+030C -/
def accCaron : Char := Char.ofNat 780

/-- Canonical (NFD) decompositions of the precomposed Latin letters in the
modelled alphabet; every other character decomposes to itself. -/
def nfdTable : List (Char × List Char) :=
  [('á', ['a', accAcute]), ('é', ['e', accAcute]), ('í', ['i', accAcute]),
   ('ó', ['o', accAcute]), ('ú', ['u', accAcute]),
   ('ü', ['u', accDiaer]), ('ö', ['o', accDiaer]), ('ñ', ['n', accTilde]),
   ('č', ['c', accCaron]), ('ć', ['c', accAcute]), ('š', ['s', accCaron]),
   ('ž', ['z', accCaron]),
   ('Á', ['A', accAcute]), ('É', ['E', accAcute]), ('Í', ['I', accAcute]),
   ('Ó', ['O', accAcute]), ('Ú', ['U', accAcute]),
   ('Ü', ['U', accDiaer]), ('Ö', ['O', accDiaer]), ('Ñ', ['N', accTilde]),
   ('Č', ['C', accCaron]), ('Ć', ['C', accAcute]), ('Š', ['S', accCaron]),
   ('Ž', ['Z', accCaron])]

/-- NFD decomposition of one character (`unicodedata.normalize` per char). -/
def nfdChar (c : Char) : List Char := (nfdTable.lookup c).getD [c]

/-- Membership in the Unicode `Mn` (nonspacing combining mark) category,
modelled as the Combining Diacritical Marks block U+0300 - U+036F, which
contains every mark produced by `nfdTable`. -/
def isMn (c : Char) : Bool := 768 ≤ c.toNat && c.toNat ≤ 879

/-- The whitespace characters recognised by Python `str.split()`. -/
def pySpaceChars : List Char := [' ', '\t', '\n', Char.ofNat 11, Char.ofNat 12, '\r']

/-- Whitespace test used by `str.split()`. -/
def isPySpace (c : Char) : Bool := pySpaceChars.contains c

/-- Helper for `splitW`: accumulates the current word (reversed) while
scanning; words are flushed at whitespace and at the end. -/
def splitAux : List Char → List Char → List (List Char)
  | [], acc => if acc = [] then [] else [acc.reverse]
  | c :: rest, acc =>
    if isPySpace c then
      if acc = [] then splitAux rest [] else acc.reverse :: splitAux rest []
    else splitAux rest (c :: acc)

/-- Python `text.split()`: the maximal whitespace-free nonempty words. -/
def splitW (l : List Char) : List (List Char) := splitAux l []

/-- Python `' '.join(words)`. -/
def joinW : List (List Char) → List Char
  | [] => []
  | [w] => w
  | w :: ws => w ++ ' ' :: joinW ws

/-- The character stages of `normalize_text` before whitespace collapsing:
lowercase, NFD-decompose, drop combining marks. -/
def preChars (l : List Char) : List Char :=
  ((l.map pyLower).flatMap nfdChar).filter (fun c => !isMn c)

/-- The character pipeline of `normalize_text` from `playerstyles1.py`:
lowercase, NFD-decompose, drop combining marks, then collapse whitespace by
splitting into words and rejoining with single spaces. -/
def normChars (l : List Char) : List Char :=
  joinW (splitW (preChars l))

/-- `normalize_text` from `playerstyles1.py`. -/
def normalize_text (s : String) : String := String.mk (normChars s.data)

/-! ## Cells, Python numbers and Python exceptions -/

/-- A Python float: a rational value or NaN (as produced by
`pd.to_numeric(errors='coerce')`). -/
inductive PyNum where
  | q (v : ℚ)
  | nan
deriving DecidableEq, Repr

/-- A value stored in a table cell: a string, a number, NaN, or None. -/
inductive Cell where
  | str (s : String)
  | num (v : ℚ)
  | nan
  | null
deriving DecidableEq, Repr

/-- The Python exceptions that the embedded code can raise. -/
inductive PyError where
  | typeError
  | keyError (k : String)
  | valueError
deriving DecidableEq, Repr

/-- Python truthiness of a cell value (`if row['PTS']`): empty string, zero
and `None` are falsy; NaN is truthy. -/
def Cell.truthy : Cell → Bool
  | .str s => !s.isEmpty
  | .num v => v ≠ 0
  | .nan => true
  | .null => false

/-- Python `str()` of a cell value (`normalize_text` begins with `str(text)`).
Numbers are rendered via their canonical decimal-free representation; the
claims only exercise it on string cells. -/
def cellStr : Cell → String
  | .str s => s
  | .num v => toString v
  | .nan => String.mk ['n', 'a', 'n']
  | .null => String.mk ['N', 'o', 'n', 'e']

/-- Decimal digit value of a character, if any. -/
def digitVal (c : Char) : Option Nat :=
  if '0' ≤ c ∧ c ≤ '9' then some (c.toNat - 48) else none

/-- Parse a nonempty all-digit list as a natural number. -/
def parseDigits : List Char → Option Nat
  | [] => none
  | l =>
    l.foldl (fun acc c =>
      match acc, digitVal c with
      | some n, some d => some (n * 10 + d)
      | _, _ => none) (some 0)

/-- Parse an optional sign followed by digits, an optional dot and more
digits, as Python `float` does on plain decimal literals. -/
def parseRat (l : List Char) : Option ℚ :=
  let core : List Char → Option ℚ := fun ds =>
    let ip := ds.takeWhile (fun c => c ≠ '.')
    match ds.dropWhile (fun c => c ≠ '.') with
    | [] => (parseDigits ip).map (fun n => (n : ℚ))
    | _ :: fp =>
      if fp.any (fun c => c = '.') then none
      else
        match ip, fp with
        | [], [] => none
        | [], _ =>  (parseDigits fp).map (fun f => (f : ℚ) / ((10 : ℚ) ^ fp.length))
        | _, [] => (parseDigits ip).map (fun n => (n : ℚ))
        | _, _ =>
          match parseDigits ip, parseDigits fp with
          | some n, some f => some ((n : ℚ) + (f : ℚ) / ((10 : ℚ) ^ fp.length))
          | _, _ => none
  match l with
  | '-' :: rest => (core rest).map (fun v => -v)
  | '+' :: rest => core rest
  | _ => core l

/-- Python `float(x)` on a cell value. -/
def pyFloat : Cell → Except PyError PyNum
  | .str s =>
    match parseRat s.data with
    | some v => .ok (.q v)
    | none => .error .valueError
  | .num v => .ok (.q v)
  | .nan => .ok .nan
  | .null => .error .typeError

/-- Truncation toward zero, as Python `int` applied to a float. -/
def pyTrunc (v : ℚ) : Int := if 0 ≤ v then ⌊v⌋ else ⌈v⌉

/-- Parse an optional sign followed by digits, as Python `int` on strings. -/
def parseIntChars (l : List Char) : Option Int :=
  match l with
  | '-' :: rest => (parseDigits rest).map (fun n => -(n : Int))
  | '+' :: rest => (parseDigits rest).map (fun n => (n : Int))
  | _ => (parseDigits l).map (fun n => (n : Int))

/-- Python `int(x)` on a cell value (`int(float('nan'))` raises). -/
def pyInt : Cell → Except PyError Int
  | .str s =>
    match parseIntChars s.data with
    | some v => .ok v
    | none => .error .valueError
  | .num v => .ok (pyTrunc v)
  | .nan => .error .valueError
  | .null => .error .typeError

/-- `pd.to_numeric(errors='coerce')` on one cell: unparsable values become NaN. -/
def toNumericCell : Cell → Cell
  | .str s =>
    match parseRat s.data with
    | some v => .num v
    | none => .nan
  | .num v => .num v
  | .nan => .nan
  | .null => .nan

/-- A cell holds a numeric-dtype value (number or NaN). -/
def numericKind : Cell → Bool
  | .num _ => true
  | .nan => true
  | _ => false

/-! ## DataFrames -/

/-- A pandas DataFrame: ordered column names and rows of cells (each row
lists its cells in column order). -/
structure DataFrame where
  columns : List String
  rows : List (List Cell)
deriving DecidableEq, Repr

/-- Index of a column name, if present. -/
def DataFrame.colIdx (df : DataFrame) (c : String) : Option Nat :=
  df.columns.findIdx? (fun x => x = c)

/-- Cell of a row at a named column, `Cell.null` when absent or short
(used only where the source has checked that the column exists). -/
def rowCell (df : DataFrame) (r : List Cell) (c : String) : Cell :=
  match df.colIdx c with
  | some i => r.getD i Cell.null
  | none => Cell.null

/-- `row['C']` on an `iterrows` row: KeyError when the column is absent. -/
def seriesGet (df : DataFrame) (r : List Cell) (c : String) : Except PyError Cell :=
  match df.colIdx c with
  | some i => .ok (r.getD i Cell.null)
  | none => .error (.keyError c)

/-- `df['C']` resolved to a column index: KeyError when the column is absent. -/
def colIdxE (df : DataFrame) (c : String) : Except PyError Nat :=
  match df.colIdx c with
  | some i => .ok i
  | none => .error (.keyError c)

/-- Column selection `df[cs]` (used with columns known to exist). -/
def DataFrame.select (df : DataFrame) (cs : List String) : DataFrame :=
  ⟨cs, df.rows.map (fun r => cs.map (fun c => rowCell df r c))⟩

/-- In-place update of one column, `df['C'] = f(df['C'])`. -/
def DataFrame.mapCol (df : DataFrame) (c : String) (f : Cell → Cell) : DataFrame :=
  match df.colIdx c with
  | some i => ⟨df.columns, df.rows.map (fun r => r.set i (f (r.getD i Cell.null)))⟩
  | none => df

/-- Appending a constant column, `df['C'] = v`. -/
def DataFrame.addConstCol (df : DataFrame) (c : String) (v : Cell) : DataFrame :=
  ⟨df.columns ++ [c], df.rows.map (fun r => r ++ [v])⟩

/-! ## Flask handlers -/

/-- One element of the `"data"` list built by `get_player`. -/
structure PlayerEntry where
  playType : String
  team : Cell
  pts : PyNum
  player : Cell
deriving DecidableEq, Repr

/-- One element of the `"data"` list built by `get_defense`. -/
structure DefEntry where
  playType : String
  team : Cell
  rank : Int
  ppp : PyNum
deriving DecidableEq, Repr

/-- The JSON bodies produced by the endpoints. -/
inductive RespBody where
  | err (msg : String)
  | playerResult (player : Cell) (data : List PlayerEntry)
  | defenseResult (team : Cell) (data : List DefEntry)
  | matchupResult (player defense : RespBody)
  | statusResult (cached : Bool) (offensiveTypes defensiveTypes : Nat)
  | analysisResult (analysis player team : String)
deriving DecidableEq, Repr

/-- A Flask view return value: either a bare `jsonify(...)` response (HTTP
200) or a `(jsonify(...), code)` tuple. -/
inductive FlaskRet where
  | resp (body : RespBody)
  | withCode (body : RespBody) (code : Nat)
deriving DecidableEq, Repr

deriving instance DecidableEq for Except

/-- HTTP status of a view return value (`jsonify` alone means 200). -/
def statusCode : FlaskRet → Nat
  | .resp _ => 200
  | .withCode _ c => c

/-- Python `ret[1]`: a tuple yields its status code, while subscripting a
bare `Response` object raises `TypeError`. -/
def retCode : FlaskRet → Except PyError Nat
  | .resp _ => .error .typeError
  | .withCode _ c => .ok c

/-- Python `ret[0].get_json()`: a tuple yields its body, while subscripting a
bare `Response` object raises `TypeError`. -/
def retBody : FlaskRet → Except PyError RespBody
  | .resp _ => .error .typeError
  | .withCode b _ => .ok b

/-- An offensive or defensive cache: play-type names mapped to tables, in
dict iteration (insertion) order. -/
abbrev Cache := List (String × DataFrame)

/-- Python `needle in hay` on strings: contiguous substring test. -/
def listSub (needle : List Char) : List Char → Bool
  | [] => needle.isEmpty
  | c :: t => needle.isPrefixOf (c :: t) || listSub needle t

/-- The column guard in `get_player`:
`'PLAYER' in df.columns and 'PTS' in df.columns and 'TEAM' in df.columns`. -/
def hasCols (df : DataFrame) : Bool :=
  df.columns.contains "PLAYER" && df.columns.contains "PTS" && df.columns.contains "TEAM"

/-- The inner predicate `matches_player` of `get_player`: the normalized
query is a substring of the normalized PLAYER cell. -/
def matchesPlayer (searchNorm : List Char) (c : Cell) : Bool :=
  listSub searchNorm (normChars (cellStr c).data)

/-- `float(row['PTS']) if row['PTS'] else 0` -/
def ptsValM (c : Cell) : Except PyError PyNum :=
  if c.truthy then pyFloat c else .ok (.q 0)

/-- The dict appended to `player_data` for one matching row. -/
def mkEntryM (pt : String) (df : DataFrame) (r : List Cell) : Except PyError PlayerEntry := do
  let p ← ptsValM (rowCell df r "PTS")
  pure ⟨pt, rowCell df r "TEAM", p, rowCell df r "PLAYER"⟩

/-- The `player_data` accumulation loop of `get_player`: per play type, the
tables owning the three needed columns contribute their matching rows in
order; other tables are skipped. -/
def playerDataM (sn : List Char) : Cache → Except PyError (List PlayerEntry)
  | [] => .ok []
  | (pt, df) :: rest => do
    let head ←
      if hasCols df then
        (df.rows.filter (fun r => matchesPlayer sn (rowCell df r "PLAYER"))).mapM (mkEntryM pt df)
      else pure []
    let tail ← playerDataM sn rest
    pure (head ++ tail)

/-- What `get_player` reports as `"player"`: the first entry's PLAYER value,
or the raw query when the list is empty. -/
def headPlayer (pd : List PlayerEntry) (player_name : String) : Cell :=
  match pd with
  | e :: _ => e.player
  | [] => .str player_name

/-- `get_player` from `flask_backend.py`. -/
def get_player (cache : Cache) (player_name : String) : Except PyError FlaskRet := do
  if cache.isEmpty then
    return .withCode (.err ("Data not loaded. Please run scraper_backend.py first.")) 503
  let pd ← playerDataM (normChars player_name.data) cache
  if pd.isEmpty then
    return .withCode (.err ("Player not found")) 404
  return .resp (.playerResult (headPlayer pd player_name) pd)

/-- `df['TEAM'].str.contains(team_name, case=False, na=False)` on one cell:
case-insensitive substring on strings, `False` on non-string values. -/
def cellContainsCI (pat : String) (c : Cell) : Bool :=
  match c with
  | .str s => listSub (pat.data.map pyLower) (s.data.map pyLower)
  | _ => false

/-- The `defense_data` accumulation loop of `get_defense`: `df['TEAM']` is
read without a column guard, so a table lacking TEAM raises `KeyError`, and
each matching row reads TEAM, RANK and PPP from the row. -/
def defDataM (team_name : String) : Cache → Except PyError (List DefEntry)
  | [] => .ok []
  | (pt, df) :: rest => do
    let ti ← colIdxE df "TEAM"
    let head ←
      (df.rows.filter (fun r => cellContainsCI team_name (r.getD ti Cell.null))).mapM
        (fun r => do
          let teamCell ← seriesGet df r "TEAM"
          let rank ← pyInt (← seriesGet df r "RANK")
          let pppCell ← seriesGet df r "PPP"
          let ppp ← if pppCell.truthy then pyFloat pppCell else pure (PyNum.q 0)
          pure (⟨pt, teamCell, rank, ppp⟩ : DefEntry))
    let tail ← defDataM team_name rest
    pure (head ++ tail)

/-- What `get_defense` reports as `"team"`. -/
def headTeam (dd : List DefEntry) (team_name : String) : Cell :=
  match dd with
  | e :: _ => e.team
  | [] => .str team_name

/-- `get_defense` from `flask_backend.py`. -/
def get_defense (cache : Cache) (team_name : String) : Except PyError FlaskRet := do
  if cache.isEmpty then
    return .withCode (.err ("Data not loaded. Please run scraper_backend.py first.")) 503
  let dd ← defDataM team_name cache
  if dd.isEmpty then
    return .withCode (.err ("Team not found")) 404
  return .resp (.defenseResult (headTeam dd team_name) dd)

/-- `get_matchup` from `flask_backend.py`: it subscripts both lookup results
with `[1]` and `[0]`, which only succeeds on `(response, code)` tuples. -/
def get_matchup (off defc : Cache) (player_name team_name : String) :
    Except PyError FlaskRet := do
  let pr ← get_player off player_name
  let c1 ← retCode pr
  if c1 = 404 then
    return pr
  let dr ← get_defense defc team_name
  let c2 ← retCode dr
  if c2 = 404 then
    return dr
  let pj ← retBody pr
  let dj ← retBody dr
  return .resp (.matchupResult pj dj)

/-- The `except` handler of `ai_analysis`: a rate-limit response when the
message mentions a quota or 429, a generic failure otherwise. -/
def aiErrorResponse (msg : String) : FlaskRet :=
  if listSub "quota".data (msg.data.map pyLower) || listSub "429".data msg.data then
    .withCode (.err ("Rate limit exceeded. Please wait a minute and try again.")) 429
  else
    .withCode (.err ("Analysis failed: " ++ msg)) 500

/-- Python falsiness of `data.get(...)`: missing key or empty string. -/
def optFalsy : Option String → Bool
  | none => true
  | some s => s.isEmpty

/-- `ai_analysis` from `flask_backend.py`.  The crew execution is external:
its outcome (final analysis text, or the message of the exception raised
anywhere in the `try` body after the name check) is a parameter. -/
def ai_analysis (playerName teamName : Option String) (crew : Except String String) : FlaskRet :=
  if optFalsy playerName || optFalsy teamName then
    .withCode (.err ("Missing player or team name")) 400
  else
    match crew with
    | .ok analysis => .resp (.analysisResult analysis (playerName.getD "") (teamName.getD ""))
    | .error e => aiErrorResponse e

/-! ## Server state and request dispatch -/

/-- The process-global caches of `flask_backend.py` (`cache_timestamp` is the
Unix time loaded from `cache_info.json`). -/
structure ServerState where
  offensive_cache : Cache
  defensive_cache : Cache
  cache_timestamp : Option ℚ
deriving DecidableEq, Repr

/-- One incoming HTTP request to the five routes. -/
inductive ApiRequest where
  | player (name : String)
  | defense (team : String)
  | matchup (player team : String)
  | status
  | aiAnalysis (playerName teamName : Option String) (crew : Except String String)
deriving Repr

/-- Dispatch of one request against the globals: every handler only reads the
caches, so the state is returned unchanged (the time-derived `age_seconds`
and `cache_date` fields of `/api/status` are outside the model). -/
def handle (st : ServerState) : ApiRequest → Except PyError FlaskRet × ServerState
  | .player n => (get_player st.offensive_cache n, st)
  | .defense t => (get_defense st.defensive_cache t, st)
  | .matchup p t => (get_matchup st.offensive_cache st.defensive_cache p t, st)
  | .status =>
    (.ok (.resp (.statusResult st.cache_timestamp.isSome
        st.offensive_cache.length st.defensive_cache.length)), st)
  | .aiAnalysis p t crew => (.ok (ai_analysis p t crew), st)

/-! ## Scraper side: `get_defensive_stats` and the JSON cache files -/

/-- The post-scrape core of `get_defensive_stats` from `playerstyles1.py`,
applied to the scraped header texts and body rows (each a list of cell
texts): prepend a 1-based RANK column, coerce PPP to numeric when present,
return `None` unless TEAM and PPP are both present, and otherwise keep
exactly RANK, TEAM, PPP plus a constant Play_Type column. -/
def get_defensive_stats (headers : List String) (body : List (List String))
    (play_type : String) : Option DataFrame :=
  let all_rows := ((List.range body.length).zip body).map
    (fun p => Cell.num ((p.1 : ℚ) + 1) :: p.2.map Cell.str)
  let df0 : DataFrame := ⟨"RANK" :: headers, all_rows⟩
  let df1 := if df0.columns.contains "PPP" then df0.mapCol "PPP" toNumericCell else df0
  if !(df1.columns.contains "TEAM") || !(df1.columns.contains "PPP") then none
  else some ((df1.select ["RANK", "TEAM", "PPP"]).addConstCol "Play_Type" (.str play_type))

/-- `DataFrame.to_dict('records')`: each row as a name/value association list
in column order. -/
def dfToRecords (df : DataFrame) : List (List (String × Cell)) :=
  df.rows.map (fun r => df.columns.zip r)

/-- Order-preserving first-occurrence deduplication (how pandas collects the
columns of `pd.DataFrame(records)`). -/
def firstDedupGo : List String → List String → List String
  | [], _ => []
  | a :: l, seen => if a ∈ seen then firstDedupGo l seen else a :: firstDedupGo l (a :: seen)

/-- First-occurrence deduplication of a list of column names. -/
def firstDedup (l : List String) : List String := firstDedupGo l []

/-- `pd.DataFrame(records)`: columns are the record keys in order of first
appearance; missing keys become NaN. -/
def dfOfRecords (records : List (List (String × Cell))) : DataFrame :=
  let cols := firstDedup (records.flatMap (fun rec => rec.map Prod.fst))
  ⟨cols, records.map (fun rec => cols.map (fun c => (rec.lookup c).getD Cell.nan))⟩

/-- What `scrape_all_data` writes to a cache JSON file (JSON serialisation of
records is the identity at this level of modelling). -/
def cacheDump (cache : Cache) : List (String × List (List (String × Cell))) :=
  cache.map (fun p => (p.1, dfToRecords p.2))

/-- What `load_cache_from_json` rebuilds from a cache JSON file. -/
def cacheLoad (data : List (String × List (List (String × Cell)))) : Cache :=
  data.map (fun p => (p.1, dfOfRecords p.2))

/-! ## Pure characterisations used by the proofs -/

/-- Pure points value, equal to `ptsValM` on numeric-dtype cells. -/
def ptsValP (c : Cell) : PyNum :=
  if c.truthy then
    match c with
    | .num v => .q v
    | .nan => .nan
    | _ => .q 0
  else .q 0

/-- Pure entry builder, equal to `mkEntryM` on numeric-dtype PTS cells. -/
def mkEntryP (pt : String) (df : DataFrame) (r : List Cell) : PlayerEntry :=
  ⟨pt, rowCell df r "TEAM", ptsValP (rowCell df r "PTS"), rowCell df r "PLAYER"⟩

/-- Pure form of the `player_data` loop. -/
def playerDataP (sn : List Char) (cache : Cache) : List PlayerEntry :=
  cache.flatMap (fun p =>
    if hasCols p.2 then
      (p.2.rows.filter (fun r => matchesPlayer sn (rowCell p.2 r "PLAYER"))).map (mkEntryP p.1 p.2)
    else [])

/-- Cache well-formedness: in every table owning the PLAYER/PTS/TEAM columns,
the PTS cells carry numeric dtype (which `get_offensive_stats` guarantees via
`pd.to_numeric`). -/
def PtsWF (cache : Cache) : Prop :=
  ∀ p ∈ cache, hasCols p.2 = true →
    ∀ r ∈ p.2.rows, numericKind (rowCell p.2 r "PTS") = true

instance ptsWFDecidable (cache : Cache) : Decidable (PtsWF cache) := by
  unfold PtsWF
  infer_instance

/-- The first matching row in cache iteration order, with its table. -/
def firstMatchingRow (sn : List Char) : Cache → Option (String × DataFrame × List Cell)
  | [] => none
  | (pt, df) :: rest =>
    if hasCols df then
      match df.rows.find? (fun r => matchesPlayer sn (rowCell df r "PLAYER")) with
      | some r => some (pt, df, r)
      | none => firstMatchingRow sn rest
    else firstMatchingRow sn rest

/-! ## Auxiliary definitions for the statements and witnesses -/

/-- The `"data"` list of a successful player response (empty otherwise). -/
def retData : FlaskRet → List PlayerEntry
  | .resp (.playerResult _ d) => d
  | _ => []

/-- The RANK column of a table. -/
def rankColumn (df : DataFrame) : List Cell :=
  df.rows.map (fun r => r.getD 0 Cell.null)

/-- Example offensive row. -/
def offRowEx : List Cell := [Cell.str ("LeBron James"), Cell.str ("LAL"), Cell.num 8]

/-- Example offensive table. -/
def offDfEx : DataFrame := ⟨["PLAYER", "TEAM", "PTS"], [offRowEx]⟩

/-- Example offensive cache. -/
def offCacheEx : Cache := [("Isolation", offDfEx)]

/-- Example defensive table. -/
def defDfEx : DataFrame :=
  ⟨["RANK", "TEAM", "PPP"], [[Cell.num 1, Cell.str ("Boston Celtics"), Cell.num 1]]⟩

/-- Example defensive cache. -/
def defCacheEx : Cache := [("Isolation", defDfEx)]

/-- A defensive cache whose table lacks the TEAM column. -/
def defCacheNoTeam : Cache := [("Isolation", ⟨["FOO"], [[Cell.str ("x")]]⟩)]

/-! ## Lemmas on the character pipeline -/

theorem lookup_mem {α β : Type} [BEq α] [LawfulBEq α] {l : List (α × β)} {a : α} {b : β}
    (h : l.lookup a = some b) : (a, b) ∈ l := by
  obtain ⟨l₁, l₂, rfl, -⟩ := List.lookup_eq_some_iff.mp h
  simp

theorem pyLower_idem (c : Char) : pyLower (pyLower c) = pyLower c := by
  unfold pyLower
  cases h : lowerTable.lookup c with
  | none => simp [h]
  | some v =>
    have hv : (c, v) ∈ lowerTable := lookup_mem h
    have hall : ∀ p ∈ lowerTable, lowerTable.lookup p.2 = none := by decide
    simp [hall (c, v) hv]

theorem isPySpace_char (c : Char) (h : isPySpace c = true) :
    pyLower c = c ∧ nfdChar c = [c] ∧ isMn c = false := by
  have hc : c ∈ pySpaceChars := by
    obtain ⟨a, ha, hb⟩ := List.contains_iff_exists_mem_beq.mp h
    rwa [show c = a from eq_of_beq hb]
  simp only [pySpaceChars, List.mem_cons, List.not_mem_nil, or_false] at hc
  rcases hc with rfl | rfl | rfl | rfl | rfl | rfl <;> decide

theorem nfd_of_lower (c d : Char) (h : d ∈ nfdChar (pyLower c)) :
    pyLower d = d ∧ (isMn d = false → nfdChar d = [d]) := by
  unfold nfdChar at h
  cases hl : nfdTable.lookup (pyLower c) with
  | none =>
    rw [hl] at h
    simp at h
    subst h
    exact ⟨pyLower_idem c, fun _ => by unfold nfdChar; rw [hl]; rfl⟩
  | some v =>
    rw [hl] at h
    simp at h
    have hmem : (pyLower c, v) ∈ nfdTable := lookup_mem hl
    have check : ∀ p ∈ nfdTable, pyLower p.1 = p.1 →
        ∀ d2 ∈ p.2, pyLower d2 = d2 ∧ (isMn d2 = false → nfdTable.lookup d2 = none) := by decide
    have hthis := check _ hmem (pyLower_idem c) d h
    exact ⟨hthis.1, fun hmn => by unfold nfdChar; rw [hthis.2 hmn]; rfl⟩

theorem preChars_append (l1 l2 : List Char) :
    preChars (l1 ++ l2) = preChars l1 ++ preChars l2 := by
  simp [preChars]

theorem preChars_mem (l : List Char) (c : Char) (h : c ∈ preChars l) :
    pyLower c = c ∧ isMn c = false ∧ nfdChar c = [c] := by
  unfold preChars at h
  rw [List.mem_filter] at h
  obtain ⟨h1, h2⟩ := h
  rw [List.mem_flatMap] at h1
  obtain ⟨c0, hc0, hd⟩ := h1
  rw [List.mem_map] at hc0
  obtain ⟨c1, -, rfl⟩ := hc0
  have hmn : isMn c = false := by simpa using h2
  have hf := nfd_of_lower c1 c hd
  exact ⟨hf.1, hmn, hf.2 hmn⟩

theorem splitAux_words : ∀ (l : List Char), ∀ (acc : List Char),
    (∀ c ∈ acc, isPySpace c = false) →
    ∀ w ∈ splitAux l acc, w ≠ [] ∧ ∀ c ∈ w, isPySpace c = false ∧ (c ∈ l ∨ c ∈ acc) := by
  intro l
  induction l with
  | nil =>
    intro acc hacc w hw
    simp only [splitAux] at hw
    by_cases hae : acc = []
    · simp [hae] at hw
    · rw [if_neg hae] at hw
      simp at hw
      subst hw
      refine ⟨by simp [hae], ?_⟩
      intro c hc
      rw [List.mem_reverse] at hc
      exact ⟨hacc c hc, Or.inr hc⟩
  | cons c0 rest ih =>
    intro acc hacc w hw
    simp only [splitAux] at hw
    by_cases hsp : isPySpace c0
    · rw [if_pos hsp] at hw
      by_cases hae : acc = []
      · rw [if_pos hae] at hw
        have hh := ih [] (by simp) w hw
        exact ⟨hh.1, fun c hc => ⟨(hh.2 c hc).1,
          Or.inl (List.mem_cons_of_mem _ ((hh.2 c hc).2.resolve_right (by simp)))⟩⟩
      · rw [if_neg hae] at hw
        rcases List.mem_cons.mp hw with rfl | hw2
        · refine ⟨by simp [hae], ?_⟩
          intro c hc
          rw [List.mem_reverse] at hc
          exact ⟨hacc c hc, Or.inr hc⟩
        · have hh := ih [] (by simp) w hw2
          exact ⟨hh.1, fun c hc => ⟨(hh.2 c hc).1,
            Or.inl (List.mem_cons_of_mem _ ((hh.2 c hc).2.resolve_right (by simp)))⟩⟩
    · rw [if_neg hsp] at hw
      have hc0 : isPySpace c0 = false := by simpa using hsp
      have hacc' : ∀ c ∈ c0 :: acc, isPySpace c = false := by
        intro c hc
        rcases List.mem_cons.mp hc with rfl | hc2
        · exact hc0
        · exact hacc c hc2
      have hh := ih (c0 :: acc) hacc' w hw
      refine ⟨hh.1, fun c hc => ⟨(hh.2 c hc).1, ?_⟩⟩
      rcases (hh.2 c hc).2 with h1 | h2
      · exact Or.inl (List.mem_cons_of_mem _ h1)
      · rcases List.mem_cons.mp h2 with rfl | h3
        · exact Or.inl (List.mem_cons_self _ _)
        · exact Or.inr h3

theorem splitAux_skip_word : ∀ (w : List Char), (∀ c ∈ w, isPySpace c = false) →
    ∀ (rest acc : List Char), splitAux (w ++ rest) acc = splitAux rest (w.reverse ++ acc) := by
  intro w
  induction w with
  | nil => intro _ rest acc; simp
  | cons c w' ih =>
    intro hw rest acc
    have hc : isPySpace c = false := hw c (List.mem_cons_self _ _)
    show splitAux (c :: (w' ++ rest)) acc = _
    rw [show splitAux (c :: (w' ++ rest)) acc = splitAux (w' ++ rest) (c :: acc) by
      simp only [splitAux]; rw [if_neg (by simp [hc])]]
    rw [ih (fun x hx => hw x (List.mem_cons_of_mem _ hx)) rest (c :: acc)]
    simp

theorem joinW_cons_cons (w w2 : List Char) (ws : List (List Char)) :
    joinW (w :: w2 :: ws) = w ++ ' ' :: joinW (w2 :: ws) := rfl

theorem joinW_ne_nil (w : List Char) (ws : List (List Char)) (h : w ≠ []) :
    joinW (w :: ws) ≠ [] := by
  cases ws with
  | nil => exact h
  | cons w2 ws' => rw [joinW_cons_cons]; simp

theorem splitW_joinW (ws : List (List Char))
    (h : ∀ w ∈ ws, w ≠ [] ∧ ∀ c ∈ w, isPySpace c = false) :
    splitW (joinW ws) = ws := by
  induction ws with
  | nil => rfl
  | cons w ws' ih =>
    obtain ⟨hne, hch⟩ := h w (List.mem_cons_self _ _)
    cases ws' with
    | nil =>
      show splitAux (joinW [w]) [] = [w]
      rw [show joinW [w] = w ++ [] by simp [joinW]]
      rw [splitAux_skip_word w hch [] []]
      simp only [splitAux]
      rw [if_neg (by simp [hne])]
      simp
    | cons w2 ws'' =>
      show splitAux (joinW (w :: w2 :: ws'')) [] = _
      rw [joinW_cons_cons, splitAux_skip_word w hch]
      simp only [splitAux]
      rw [if_pos (by decide), if_neg (by simp [hne])]
      rw [show splitAux (joinW (w2 :: ws'')) [] = splitW (joinW (w2 :: ws'')) from rfl]
      rw [ih (fun x hx => h x (List.mem_cons_of_mem _ hx))]
      simp

theorem mem_joinW (ws : List (List Char)) (c : Char) (h : c ∈ joinW ws) :
    c = ' ' ∨ ∃ w ∈ ws, c ∈ w := by
  induction ws with
  | nil => simp [joinW] at h
  | cons w ws' ih =>
    cases ws' with
    | nil => exact Or.inr ⟨w, List.mem_cons_self _ _, h⟩
    | cons w2 ws'' =>
      rw [joinW_cons_cons] at h
      rcases List.mem_append.mp h with h1 | h2
      · exact Or.inr ⟨w, List.mem_cons_self _ _, h1⟩
      · rcases List.mem_cons.mp h2 with rfl | h3
        · exact Or.inl rfl
        · rcases ih h3 with h4 | ⟨w', hw', hc'⟩
          · exact Or.inl h4
          · exact Or.inr ⟨w', List.mem_cons_of_mem _ hw', hc'⟩

theorem normChars_char_fixed (l : List Char) (c : Char) (h : c ∈ normChars l) :
    pyLower c = c ∧ isMn c = false ∧ nfdChar c = [c] := by
  unfold normChars at h
  rcases mem_joinW _ _ h with rfl | ⟨w, hw, hc⟩
  · exact ⟨by decide, by decide, by decide⟩
  · have hww := splitAux_words (preChars l) [] (by simp) w hw
    have hcc := (hww.2 c hc).2.resolve_right (by simp)
    exact preChars_mem l c hcc

theorem flatMap_singleton_id (l : List Char) (f : Char → List Char)
    (h : ∀ c ∈ l, f c = [c]) : l.flatMap f = l := by
  induction l with
  | nil => rfl
  | cons a t ih =>
    rw [List.flatMap_cons, h a (List.mem_cons_self _ _),
      ih (fun c hc => h c (List.mem_cons_of_mem _ hc))]
    rfl

theorem preChars_fixed (m : List Char)
    (h : ∀ c ∈ m, pyLower c = c ∧ isMn c = false ∧ nfdChar c = [c]) : preChars m = m := by
  unfold preChars
  rw [show m.map pyLower = m by
    have h1 := List.map_congr_left (fun c hc => (h c hc).1)
    simpa using h1]
  rw [flatMap_singleton_id m nfdChar (fun c hc => (h c hc).2.2)]
  rw [List.filter_eq_self.mpr (fun c hc => by simp [(h c hc).2.1])]

theorem normChars_idem (l : List Char) : normChars (normChars l) = normChars l := by
  conv_lhs => rw [normChars]
  rw [preChars_fixed (normChars l) (normChars_char_fixed l)]
  rw [show normChars l = joinW (splitW (preChars l)) from rfl]
  rw [splitW_joinW (splitW (preChars l)) (fun w hw =>
    ⟨(splitAux_words (preChars l) [] (by simp) w hw).1,
     fun c hc => ((splitAux_words (preChars l) [] (by simp) w hw).2 c hc).1⟩)]

theorem chain'_of_all_nonspace (l : List Char) (h : ∀ c ∈ l, isPySpace c = false) :
    List.Chain' (fun a b => isPySpace a = false ∨ isPySpace b = false) l := by
  induction l with
  | nil => exact List.chain'_nil
  | cons a t ih =>
    cases t with
    | nil => exact List.chain'_singleton a
    | cons b t' =>
      exact List.chain'_cons.mpr ⟨Or.inl (h a (List.mem_cons_self _ _)),
        ih (fun c hc => h c (List.mem_cons_of_mem _ hc))⟩

theorem joinW_no_edge_space (ws : List (List Char))
    (h : ∀ w ∈ ws, w ≠ [] ∧ ∀ c ∈ w, isPySpace c = false) :
    (∀ c, (joinW ws).head? = some c → isPySpace c = false) ∧
    (∀ c, (joinW ws).getLast? = some c → isPySpace c = false) ∧
    List.Chain' (fun a b => isPySpace a = false ∨ isPySpace b = false) (joinW ws) := by
  induction ws with
  | nil =>
    exact ⟨fun c hc => by simp [joinW] at hc, fun c hc => by simp [joinW] at hc, List.chain'_nil⟩
  | cons w ws' ih =>
    obtain ⟨hne, hch⟩ := h w (List.mem_cons_self _ _)
    cases ws' with
    | nil =>
      refine ⟨?_, ?_, chain'_of_all_nonspace w hch⟩
      · exact fun c hc => hch c (List.mem_of_mem_head? hc)
      · exact fun c hc => hch c (List.mem_of_mem_getLast? hc)
    | cons w2 ws'' =>
      have ihh := ih (fun x hx => h x (List.mem_cons_of_mem _ hx))
      have hJne : joinW (w2 :: ws'') ≠ [] :=
        joinW_ne_nil w2 ws'' (h w2 (by simp)).1
      rw [joinW_cons_cons]
      refine ⟨?_, ?_, ?_⟩
      · intro c hc
        rw [List.head?_append_of_ne_nil _ hne] at hc
        exact hch c (List.mem_of_mem_head? hc)
      · intro c hc
        rw [List.getLast?_append_of_ne_nil _ (by simp)] at hc
        rw [show (' ' :: joinW (w2 :: ws'')) = [' '] ++ joinW (w2 :: ws'') from rfl] at hc
        rw [List.getLast?_append_of_ne_nil _ hJne] at hc
        exact ihh.2.1 c hc
      · rw [List.chain'_append]
        refine ⟨chain'_of_all_nonspace w hch, ?_, ?_⟩
        · rw [show (' ' :: joinW (w2 :: ws'')) = [' '] ++ joinW (w2 :: ws'') from rfl,
            List.chain'_append]
          refine ⟨List.chain'_singleton _, ihh.2.2, ?_⟩
          intro x hx y hy
          exact Or.inr (ihh.1 y hy)
        · intro x hx y hy
          have hx2 : x ∈ w := List.mem_of_mem_getLast? hx
          exact Or.inl (hch x hx2)

theorem mn_char_pre (c : Char) (h : isMn c = true) : preChars [c] = [] := by
  have hlow : pyLower c = c := by
    unfold pyLower
    cases hl : lowerTable.lookup c with
    | none => rfl
    | some v =>
      have hv : (c, v) ∈ lowerTable := lookup_mem hl
      have hall : ∀ p ∈ lowerTable, isMn p.1 = false := by decide
      rw [hall (c, v) hv] at h
      exact absurd h (by simp)
  have hnfd : nfdChar c = [c] := by
    unfold nfdChar
    cases hl : nfdTable.lookup c with
    | none => rfl
    | some v =>
      have hv : (c, v) ∈ nfdTable := lookup_mem hl
      have hall : ∀ p ∈ nfdTable, isMn p.1 = false := by decide
      rw [hall (c, v) hv] at h
      exact absurd h (by simp)
  simp [preChars, hlow, hnfd, h]

theorem space_char_pre (c : Char) (h : isPySpace c = true) : preChars [c] = [c] := by
  obtain ⟨h1, h2, h3⟩ := isPySpace_char c h
  simp [preChars, h1, h2, h3]

theorem normChars_map_lower (l : List Char) : normChars (l.map pyLower) = normChars l := by
  unfold normChars preChars
  rw [List.map_map]
  rw [show l.map (pyLower ∘ pyLower) = l.map pyLower from
    List.map_congr_left (fun c _ => pyLower_idem c)]

theorem normChars_drop_mn (l1 l2 : List Char) (c : Char) (h : isMn c = true) :
    normChars (l1 ++ c :: l2) = normChars (l1 ++ l2) := by
  unfold normChars
  rw [show l1 ++ c :: l2 = l1 ++ [c] ++ l2 by simp]
  rw [preChars_append, preChars_append, preChars_append, mn_char_pre c h]
  simp

theorem splitAux_cons_space_nil (c : Char) (rest : List Char) (h : isPySpace c = true) :
    splitAux (c :: rest) [] = splitAux rest [] := by
  simp [splitAux, h]

theorem splitAux_cons_space (c : Char) (rest acc : List Char) (h : isPySpace c = true)
    (ha : acc ≠ []) : splitAux (c :: rest) acc = acc.reverse :: splitAux rest [] := by
  simp [splitAux, h, ha]

theorem splitAux_cons_nonspace (c : Char) (rest acc : List Char) (h : isPySpace c = false) :
    splitAux (c :: rest) acc = splitAux rest (c :: acc) := by
  simp [splitAux, h]

theorem splitAux_double_space (c : Char) (h : isPySpace c = true) :
    ∀ (A : List Char), ∀ (B acc : List Char),
    splitAux (A ++ c :: c :: B) acc = splitAux (A ++ c :: B) acc := by
  intro A
  induction A with
  | nil =>
    intro B acc
    rw [List.nil_append, List.nil_append]
    by_cases hae : acc = []
    · subst hae
      rw [splitAux_cons_space_nil c (c :: B) h, splitAux_cons_space_nil c B h]
    · rw [splitAux_cons_space c (c :: B) acc h hae, splitAux_cons_space c B acc h hae,
        splitAux_cons_space_nil c B h]
  | cons a A' ih =>
    intro B acc
    rw [List.cons_append, List.cons_append]
    by_cases hsa : isPySpace a
    · by_cases hae : acc = []
      · subst hae
        rw [splitAux_cons_space_nil a _ hsa, splitAux_cons_space_nil a _ hsa, ih]
      · rw [splitAux_cons_space a _ acc hsa hae, splitAux_cons_space a _ acc hsa hae, ih]
    · have hsa2 : isPySpace a = false := by simpa using hsa
      rw [splitAux_cons_nonspace a _ acc hsa2, splitAux_cons_nonspace a _ acc hsa2, ih]

theorem normChars_collapse_space (l1 l2 : List Char) (c : Char) (h : isPySpace c = true) :
    normChars (l1 ++ c :: c :: l2) = normChars (l1 ++ c :: l2) := by
  have e1 : preChars (l1 ++ c :: c :: l2) = preChars l1 ++ c :: c :: preChars l2 := by
    rw [show l1 ++ c :: c :: l2 = l1 ++ ([c] ++ ([c] ++ l2)) by simp]
    rw [preChars_append, preChars_append, preChars_append]
    simp only [space_char_pre c h]
    simp
  have e2 : preChars (l1 ++ c :: l2) = preChars l1 ++ c :: preChars l2 := by
    rw [show l1 ++ c :: l2 = l1 ++ ([c] ++ l2) by simp]
    rw [preChars_append, preChars_append]
    simp only [space_char_pre c h]
    simp
  unfold normChars
  rw [e1, e2]
  unfold splitW
  rw [splitAux_double_space c h]

/-- C8: `normalize_text` is idempotent; its output contains no uppercase
letter (every character is fixed by lowercasing), no combining mark, no
leading or trailing whitespace, and no two adjacent whitespace characters;
and it is insensitive to case, to inserted combining accents, and to extra
whitespace in the input, so player matching inherits those insensitivities. -/
theorem c8_normalize_text_properties (s : String) :
    normalize_text (normalize_text s) = normalize_text s
  ∧ (∀ c ∈ (normalize_text s).data, pyLower c = c ∧ isMn c = false)
  ∧ (∀ c, (normalize_text s).data.head? = some c → isPySpace c = false)
  ∧ (∀ c, (normalize_text s).data.getLast? = some c → isPySpace c = false)
  ∧ List.Chain' (fun a b => isPySpace a = false ∨ isPySpace b = false) (normalize_text s).data
  ∧ normalize_text (String.mk (s.data.map pyLower)) = normalize_text s
  ∧ (∀ l1 l2 c, isMn c = true → s.data = l1 ++ c :: l2 →
      normalize_text s = String.mk (normChars (l1 ++ l2)))
  ∧ (∀ l1 l2 c, isPySpace c = true → s.data = l1 ++ c :: c :: l2 →
      normalize_text s = String.mk (normChars (l1 ++ c :: l2))) := by
  have hdata : (normalize_text s).data = normChars s.data := rfl
  have hwords : ∀ w ∈ splitW (preChars s.data), w ≠ [] ∧ ∀ c ∈ w, isPySpace c = false :=
    fun w hw =>
      ⟨(splitAux_words (preChars s.data) [] (by simp) w hw).1,
       fun c hc => ((splitAux_words (preChars s.data) [] (by simp) w hw).2 c hc).1⟩
  have hedge := joinW_no_edge_space (splitW (preChars s.data)) hwords
  refine ⟨?_, ?_, ?_, ?_, ?_, ?_, ?_, ?_⟩
  · show String.mk (normChars (normChars s.data)) = String.mk (normChars s.data)
    rw [normChars_idem]
  · intro c hc
    rw [hdata] at hc
    exact ⟨(normChars_char_fixed s.data c hc).1, (normChars_char_fixed s.data c hc).2.1⟩
  · intro c hc
    rw [hdata] at hc
    exact hedge.1 c hc
  · intro c hc
    rw [hdata] at hc
    exact hedge.2.1 c hc
  · rw [hdata]
    exact hedge.2.2
  · show String.mk (normChars (s.data.map pyLower)) = String.mk (normChars s.data)
    rw [normChars_map_lower]
  · intro l1 l2 c hmn hs
    show String.mk (normChars s.data) = _
    rw [hs, normChars_drop_mn l1 l2 c hmn]
  · intro l1 l2 c hsp hs
    show String.mk (normChars s.data) = _
    rw [hs, normChars_collapse_space l1 l2 c hsp]

/-- Witness for C8 at a concrete string containing an accent mark and a
doubled space. -/
theorem c8_normalize_text_properties_witness :
    normalize_text (normalize_text (String.mk ['a', accAcute, 'b', ' ', ' ', 'C'])) =
      normalize_text (String.mk ['a', accAcute, 'b', ' ', ' ', 'C'])
  ∧ normalize_text (String.mk ['a', accAcute, 'b', ' ', ' ', 'C']) =
      String.mk (normChars (['a'] ++ ['b', ' ', ' ', 'C'])) :=
  ⟨(c8_normalize_text_properties (String.mk ['a', accAcute, 'b', ' ', ' ', 'C'])).1,
   (c8_normalize_text_properties (String.mk ['a', accAcute, 'b', ' ', ' ', 'C'])).2.2.2.2.2.2.1
     ['a'] ['b', ' ', ' ', 'C'] accAcute (by decide) (by decide)⟩

/-- C7: every request handler leaves the process-global caches and timestamp
exactly as they were before the request. -/
theorem c7_handlers_preserve_globals (st : ServerState) (req : ApiRequest) :
    (handle st req).2 = st := by
  cases req <;> rfl

/-- Counterexample to C6 as stated: two exceptions take different error
paths, a 429 rate-limit response for a quota message and a generic 500 for
any other message, so the error response is not the same for every
exception. -/
theorem c6_error_paths_differ :
    statusCode (ai_analysis (some ("LeBron James")) (some ("Boston Celtics"))
      (Except.error ("quota exceeded"))) = 429
  ∧ statusCode (ai_analysis (some ("LeBron James")) (some ("Boston Celtics"))
      (Except.error ("boom"))) = 500
  ∧ ai_analysis (some ("LeBron James")) (some ("Boston Celtics"))
      (Except.error ("quota exceeded")) ≠
    ai_analysis (some ("LeBron James")) (some ("Boston Celtics"))
      (Except.error ("boom")) := by
  refine ⟨by decide, by decide, by decide⟩

/-- C6 amended: every exception raised while processing an `/api/ai-analysis`
request with both names present is caught and answered by the single
`except` handler, with no retry: a 429 rate-limit response when the message
mentions a quota (case-insensitively) or 429, and a generic 500 response
otherwise. -/
theorem c6_exception_handling (p t : Option String) (e : String)
    (hp : optFalsy p = false) (ht : optFalsy t = false) :
    ai_analysis p t (.error e) = aiErrorResponse e
  ∧ statusCode (aiErrorResponse e) =
      (if listSub ("quota").data (e.data.map pyLower) || listSub ("429").data e.data
       then 429 else 500) := by
  constructor
  · simp [ai_analysis, hp, ht]
  · by_cases hq : (listSub ("quota").data (e.data.map pyLower) || listSub ("429").data e.data) = true
    · simp [aiErrorResponse, hq, statusCode]
    · have hq2 : (listSub ("quota").data (e.data.map pyLower) || listSub ("429").data e.data) = false := by
        simpa using hq
      simp [aiErrorResponse, hq2, statusCode]

/-- Witness for C6's amended theorem at a concrete request and exception. -/
theorem c6_exception_handling_witness :
    ai_analysis (some ("a")) (some ("b")) (.error ("boom")) = aiErrorResponse ("boom")
  ∧ statusCode (aiErrorResponse ("boom")) =
      (if listSub ("quota").data (("boom").data.map pyLower) || listSub ("429").data ("boom").data
       then 429 else 500) :=
  c6_exception_handling (some ("a")) (some ("b")) ("boom") (by decide) (by decide)

/-- C1 is a code bug: both underlying lookups succeed on these caches, yet
`get_matchup` raises `TypeError` instead of returning the combined record,
because it subscripts the bare success `Response` with `[1]`; the 404
propagation only works for the player lookup, whose failure value is a
subscriptable tuple. -/
theorem c1_matchup_crashes_on_success :
    get_player offCacheEx ("james") =
      .ok (.resp (.playerResult (Cell.str ("LeBron James"))
        [⟨"Isolation", Cell.str ("LAL"), PyNum.q 8, Cell.str ("LeBron James")⟩]))
  ∧ get_defense defCacheEx ("boston") =
      .ok (.resp (.defenseResult (Cell.str ("Boston Celtics"))
        [⟨"Isolation", Cell.str ("Boston Celtics"), 1, PyNum.q 1⟩]))
  ∧ get_matchup offCacheEx defCacheEx ("james") ("boston") = .error .typeError
  ∧ get_matchup offCacheEx defCacheEx ("nobody") ("boston") =
      .ok (.withCode (.err ("Player not found")) 404) := by
  refine ⟨by decide, by decide, by decide, by decide⟩

/-! ## Lemmas on `get_player` -/

theorem exBind_ok {ε α β : Type} (a : α) (f : α → Except ε β) :
    (Except.ok a >>= f : Except ε β) = f a := rfl

theorem exBind_err {ε α β : Type} (e : ε) (f : α → Except ε β) :
    (Except.error e >>= f : Except ε β) = Except.error e := rfl

theorem ptsValM_ok (c : Cell) (h : numericKind c = true) : ptsValM c = .ok (ptsValP c) := by
  cases c with
  | str s => simp [numericKind] at h
  | null => simp [numericKind] at h
  | num v =>
    by_cases hv : v = 0
    · subst hv; simp [ptsValM, ptsValP, Cell.truthy]
    · simp [ptsValM, ptsValP, Cell.truthy, hv, pyFloat]
  | nan => rfl

theorem mkEntryM_ok (pt : String) (df : DataFrame) (r : List Cell)
    (h : numericKind (rowCell df r "PTS") = true) :
    mkEntryM pt df r = .ok (mkEntryP pt df r) := by
  unfold mkEntryM mkEntryP
  rw [ptsValM_ok _ h]
  rfl

theorem mapM_mkEntry_ok (pt : String) (df : DataFrame) (l : List (List Cell))
    (h : ∀ r ∈ l, numericKind (rowCell df r "PTS") = true) :
    l.mapM (mkEntryM pt df) = .ok (l.map (mkEntryP pt df)) := by
  induction l with
  | nil => rfl
  | cons r t ih =>
    rw [List.mapM_cons, mkEntryM_ok pt df r (h r (List.mem_cons_self _ _))]
    rw [exBind_ok, ih (fun x hx => h x (List.mem_cons_of_mem _ hx))]
    rfl

theorem playerDataM_ok (sn : List Char) (cache : Cache) (h : PtsWF cache) :
    playerDataM sn cache = .ok (playerDataP sn cache) := by
  induction cache with
  | nil => rfl
  | cons p rest ih =>
    obtain ⟨pt, df⟩ := p
    have hrest : PtsWF rest := fun x hx => h x (List.mem_cons_of_mem _ hx)
    simp only [playerDataM, playerDataP, List.flatMap_cons]
    by_cases hc : hasCols df
    · rw [if_pos hc, if_pos hc]
      rw [mapM_mkEntry_ok pt df _
        (fun r hr => h (pt, df) (List.mem_cons_self _ _) hc r (List.mem_of_mem_filter hr))]
      rw [exBind_ok, ih hrest, exBind_ok]
      simp only [playerDataP]
      rfl
    · rw [if_neg hc, if_neg hc]
      rw [show (pure ([] : List PlayerEntry) : Except PyError (List PlayerEntry)) =
        Except.ok [] from rfl]
      rw [exBind_ok, ih hrest, exBind_ok]
      simp only [playerDataP]
      rfl

theorem get_player_eval (cache : Cache) (q : String) (hne : cache ≠ []) (hwf : PtsWF cache) :
    get_player cache q = .ok (
      if (playerDataP (normChars q.data) cache).isEmpty then
        .withCode (.err ("Player not found")) 404
      else .resp (.playerResult (headPlayer (playerDataP (normChars q.data) cache) q)
        (playerDataP (normChars q.data) cache))) := by
  unfold get_player
  rw [show cache.isEmpty = false by simpa using hne]
  rw [if_neg (by simp)]
  rw [playerDataM_ok _ _ hwf, exBind_ok]
  by_cases hpd : (playerDataP (normChars q.data) cache).isEmpty
  · rw [if_pos hpd, if_pos hpd]; rfl
  · rw [if_neg hpd, if_neg hpd]; rfl

theorem mem_playerDataP (sn : List Char) (cache : Cache) (e : PlayerEntry) :
    e ∈ playerDataP sn cache ↔
      ∃ p ∈ cache, hasCols p.2 = true ∧ ∃ r ∈ p.2.rows,
        matchesPlayer sn (rowCell p.2 r "PLAYER") = true ∧ e = mkEntryP p.1 p.2 r := by
  unfold playerDataP
  rw [List.mem_flatMap]
  constructor
  · rintro ⟨p, hp, he⟩
    by_cases hc : hasCols p.2
    · rw [if_pos hc] at he
      rw [List.mem_map] at he
      obtain ⟨r, hr, rfl⟩ := he
      rw [List.mem_filter] at hr
      exact ⟨p, hp, hc, r, hr.1, hr.2, rfl⟩
    · rw [if_neg hc] at he
      simp at he
  · rintro ⟨p, hp, hc, r, hr, hm, rfl⟩
    refine ⟨p, hp, ?_⟩
    rw [if_pos hc]
    exact List.mem_map_of_mem _ (List.mem_filter.mpr ⟨hr, hm⟩)

theorem nodup_keys_unique {pt : String} {df df' : DataFrame} {cache : Cache}
    (hk : (cache.map Prod.fst).Nodup) (h1 : (pt, df) ∈ cache) (h2 : (pt, df') ∈ cache) :
    df = df' := by
  induction cache with
  | nil => simp at h1
  | cons p rest ih =>
    obtain ⟨k, v⟩ := p
    rw [List.map_cons, List.nodup_cons] at hk
    rcases List.mem_cons.mp h1 with e1 | m1
    · rcases List.mem_cons.mp h2 with e2 | m2
      · have h3 : (pt, df) = (pt, df') := e1.trans e2.symm
        injection h3 with _ h4
      · exfalso
        have hpt : pt ∈ rest.map Prod.fst := List.mem_map.mpr ⟨(pt, df'), m2, rfl⟩
        have he : pt = k := by injection e1 with h5 _
        exact hk.1 (by rw [← he]; exact hpt)
    · rcases List.mem_cons.mp h2 with e2 | m2
      · exfalso
        have hpt : pt ∈ rest.map Prod.fst := List.mem_map.mpr ⟨(pt, df), m1, rfl⟩
        have he : pt = k := by injection e2 with h5 _
        exact hk.1 (by rw [← he]; exact hpt)
      · exact ih hk.2 m1 m2

theorem find?_eq_filter_head? {α : Type} (p : α → Bool) (l : List α) :
    l.find? p = (l.filter p).head? := by
  induction l with
  | nil => rfl
  | cons a t ih =>
    by_cases h : p a
    · rw [List.find?_cons_of_pos _ h, List.filter_cons_of_pos h]
      rfl
    · rw [List.find?_cons_of_neg _ h, List.filter_cons_of_neg h, ih]

theorem playerDataP_head (sn : List Char) (cache : Cache) :
    (playerDataP sn cache).head? =
      (firstMatchingRow sn cache).map (fun x => mkEntryP x.1 x.2.1 x.2.2) := by
  induction cache with
  | nil => rfl
  | cons p rest ih =>
    obtain ⟨pt, df⟩ := p
    simp only [playerDataP, firstMatchingRow, List.flatMap_cons]
    by_cases hc : hasCols df
    · rw [if_pos hc, if_pos hc]
      cases hf : df.rows.find? (fun r => matchesPlayer sn (rowCell df r "PLAYER")) with
      | some r =>
        rw [find?_eq_filter_head?] at hf
        obtain ⟨t, ht⟩ : ∃ t, df.rows.filter
            (fun r => matchesPlayer sn (rowCell df r "PLAYER")) = r :: t := by
          cases hft : df.rows.filter (fun r => matchesPlayer sn (rowCell df r "PLAYER")) with
          | nil => rw [hft] at hf; simp at hf
          | cons a t =>
            rw [hft] at hf
            simp at hf
            exact ⟨t, by rw [hf]⟩
        rw [ht]
        rfl
      | none =>
        rw [find?_eq_filter_head?] at hf
        have hfe : df.rows.filter (fun r => matchesPlayer sn (rowCell df r "PLAYER")) = [] := by
          cases hft : df.rows.filter (fun r => matchesPlayer sn (rowCell df r "PLAYER")) with
          | nil => rfl
          | cons a t => rw [hft] at hf; simp at hf
        rw [hfe]
        simpa [playerDataP] using ih
    · rw [if_neg hc, if_neg hc]
      simpa [playerDataP] using ih

/-- C2: a row of a cached offensive table that has the PLAYER, PTS and TEAM
columns contributes an entry to the `/api/player/<q>` result exactly when the
normalized query is a substring of the normalized PLAYER cell. -/
theorem c2_player_match_iff (cache : Cache) (q : String) (pt : String) (df : DataFrame)
    (r : List Cell) (hwf : PtsWF cache) (hk : (cache.map Prod.fst).Nodup)
    (hmem : (pt, df) ∈ cache) (hcols : hasCols df = true) (hr : r ∈ df.rows) :
    ∃ ret, get_player cache q = .ok ret ∧
      (mkEntryP pt df r ∈ retData ret ↔
        listSub (normalize_text q).data
          (normalize_text (cellStr (rowCell df r "PLAYER"))).data = true) := by
  have hne : cache ≠ [] := by
    intro h
    subst h
    simp at hmem
  refine ⟨_, get_player_eval cache q hne hwf, ?_⟩
  have hshape : ∀ c : Cell, (matchesPlayer (normChars q.data) c = true ↔
      listSub (normalize_text q).data (normalize_text (cellStr c)).data = true) := by
    intro c
    exact Iff.rfl
  by_cases hpd : (playerDataP (normChars q.data) cache).isEmpty
  · rw [if_pos hpd]
    have hempty : playerDataP (normChars q.data) cache = [] := by
      simpa using hpd
    constructor
    · intro hin
      simp [retData] at hin
    · intro hcond
      exfalso
      have hin : mkEntryP pt df r ∈ playerDataP (normChars q.data) cache :=
        (mem_playerDataP _ _ _).mpr
          ⟨(pt, df), hmem, hcols, r, hr, (hshape _).mpr hcond, rfl⟩
      rw [hempty] at hin
      simp at hin
  · rw [if_neg hpd]
    show mkEntryP pt df r ∈ playerDataP (normChars q.data) cache ↔ _
    rw [← hshape]
    constructor
    · intro hin
      obtain ⟨p, hp, hc', r', hr', hm', heq⟩ := (mem_playerDataP _ _ _).mp hin
      have hpt : p.1 = pt := by
        have := congrArg PlayerEntry.playType heq
        simpa [mkEntryP] using this.symm
      have hdf : p.2 = df := by
        have hp2 : (pt, p.2) ∈ cache := by
          rw [← hpt]
          exact hp
        exact (nodup_keys_unique hk hp2 hmem)
      have hplayer : rowCell df r' "PLAYER" = rowCell df r "PLAYER" := by
        have := congrArg PlayerEntry.player heq
        simp only [mkEntryP] at this
        rw [hdf] at this
        exact this.symm
      rw [hdf, hplayer] at hm'
      exact hm'
    · intro hcond
      exact (mem_playerDataP _ _ _).mpr ⟨(pt, df), hmem, hcols, r, hr, hcond, rfl⟩

/-- Witness for C2 at a concrete cache, query and row. -/
theorem c2_player_match_iff_witness :
    ∃ ret, get_player offCacheEx ("james") = .ok ret ∧
      (mkEntryP ("Isolation") offDfEx offRowEx ∈ retData ret ↔
        listSub (normalize_text ("james")).data
          (normalize_text (cellStr (rowCell offDfEx offRowEx ("PLAYER")))).data = true) :=
  c2_player_match_iff offCacheEx ("james") ("Isolation") offDfEx offRowEx
    (by decide) (by decide) (by decide) (by decide) (by decide)

/-- C9: `/api/player/<name>` error precedence: empty cache means 503, no
matching row means 404 with "Player not found", and otherwise a 200 response
whose player field is the PLAYER value of the first matching row in cache
iteration order and whose data list is non-empty. -/
theorem c9_player_error_precedence (cache : Cache) (q : String) (hwf : PtsWF cache) :
    (cache = [] → get_player cache q =
      .ok (.withCode (.err ("Data not loaded. Please run scraper_backend.py first.")) 503))
  ∧ (cache ≠ [] → firstMatchingRow (normChars q.data) cache = none →
      get_player cache q = .ok (.withCode (.err ("Player not found")) 404))
  ∧ (∀ pt df r, firstMatchingRow (normChars q.data) cache = some (pt, df, r) →
      ∃ data, get_player cache q = .ok (.resp (.playerResult (rowCell df r "PLAYER") data))
        ∧ data ≠ []) := by
  refine ⟨?_, ?_, ?_⟩
  · intro h
    subst h
    rfl
  · intro hne hnone
    rw [get_player_eval cache q hne hwf]
    have hempty : playerDataP (normChars q.data) cache = [] := by
      have hh := playerDataP_head (normChars q.data) cache
      rw [hnone] at hh
      simpa using hh
    rw [if_pos (by simp [hempty])]
  · intro pt df r hsome
    have hne : cache ≠ [] := by
      intro h
      subst h
      simp [firstMatchingRow] at hsome
    have hh := playerDataP_head (normChars q.data) cache
    rw [hsome] at hh
    obtain ⟨t, ht⟩ : ∃ t, playerDataP (normChars q.data) cache = mkEntryP pt df r :: t := by
      cases hpd : playerDataP (normChars q.data) cache with
      | nil => rw [hpd] at hh; simp at hh
      | cons a t =>
        rw [hpd] at hh
        simp at hh
        exact ⟨t, by rw [hh]⟩
    refine ⟨playerDataP (normChars q.data) cache, ?_, by simp [ht]⟩
    rw [get_player_eval cache q hne hwf]
    rw [if_neg (by simp [ht])]
    rw [show headPlayer (playerDataP (normChars q.data) cache) q =
      rowCell df r "PLAYER" by rw [ht]; rfl]

/-- Witness for C9 at a concrete cache exercising the 200 branch. -/
theorem c9_player_error_precedence_witness :
    ∃ data, get_player offCacheEx ("james") =
      .ok (.resp (.playerResult (rowCell offDfEx offRowEx ("PLAYER")) data)) ∧ data ≠ [] :=
  (c9_player_error_precedence offCacheEx ("james") (by decide)).2.2
    ("Isolation") offDfEx offRowEx (by decide)

/-- Counterexample to C3 as stated: `/api/defense` does not skip rows when a
needed column is missing; with a cached defensive table lacking TEAM the
handler raises `KeyError('TEAM')` instead of completing with 404 or matches. -/
theorem c3_defense_missing_column_raises :
    get_defense defCacheNoTeam ("Boston") = .error (.keyError ("TEAM"))
  ∧ ¬ ∃ ret, get_defense defCacheNoTeam ("Boston") = .ok ret := by
  refine ⟨by decide, ?_⟩
  rintro ⟨ret, h⟩
  rw [show get_defense defCacheNoTeam ("Boston") = .error (.keyError ("TEAM")) by decide] at h
  exact Except.noConfusion h

/-- C3 amended: `get_player` guards its three columns, skipping every table
that lacks one of them, and completes without raising on any well-formed
cache; `get_defense` has no such guard, and raises `KeyError('TEAM')` as soon
as it reaches a table without a TEAM column. -/
theorem c3_missing_column_behaviour :
    (∀ (pt : String) (df : DataFrame) (rest : Cache) (sn : List Char),
      hasCols df = false → playerDataP sn ((pt, df) :: rest) = playerDataP sn rest)
  ∧ (∀ (cache : Cache) (q : String), cache ≠ [] → PtsWF cache →
      ∃ ret, get_player cache q = .ok ret)
  ∧ (∀ (pt : String) (df : DataFrame) (rest : Cache) (t : String),
      df.columns.contains ("TEAM") = false →
      get_defense ((pt, df) :: rest) t = .error (.keyError ("TEAM"))) := by
  refine ⟨?_, ?_, ?_⟩
  · intro pt df rest sn h
    simp [playerDataP, h]
  · intro cache q hne hwf
    exact ⟨_, get_player_eval cache q hne hwf⟩
  · intro pt df rest t h
    have hmem : ("TEAM" : String) ∉ df.columns := by
      simpa using h
    have hidx : df.colIdx ("TEAM") = none := by
      unfold DataFrame.colIdx
      rw [List.findIdx?_eq_none_iff]
      intro x hx
      simp only [decide_eq_false_iff_not]
      intro hxx
      exact hmem (hxx ▸ hx)
    have hcol : colIdxE df ("TEAM") = .error (.keyError ("TEAM")) := by
      unfold colIdxE
      rw [hidx]
    have hdd : defDataM t ((pt, df) :: rest) = .error (.keyError ("TEAM")) := by
      simp only [defDataM]
      rw [hcol, exBind_err]
    unfold get_defense
    rw [if_neg (by simp)]
    rw [hdd, exBind_err]
    rfl

/-- Witness for C3's amended theorem at concrete caches. -/
theorem c3_missing_column_behaviour_witness :
    playerDataP [] [(("Isolation" : String), (⟨["FOO"], []⟩ : DataFrame))] = playerDataP [] []
  ∧ (∃ ret, get_player offCacheEx ("james") = .ok ret)
  ∧ get_defense defCacheNoTeam ("Boston") = .error (.keyError ("TEAM")) :=
  ⟨c3_missing_column_behaviour.1 ("Isolation") ⟨["FOO"], []⟩ [] [] (by decide),
   c3_missing_column_behaviour.2.1 offCacheEx ("james") (by decide) (by decide),
   c3_missing_column_behaviour.2.2 ("Isolation") ⟨["FOO"], [[Cell.str ("x")]]⟩ [] ("Boston")
     (by decide)⟩

/-! ## Lemmas on the JSON cache roundtrip -/

theorem firstDedupGo_of_subset : ∀ (rest seen : List String), (∀ x ∈ rest, x ∈ seen) →
    firstDedupGo rest seen = [] := by
  intro rest
  induction rest with
  | nil => intro seen _; rfl
  | cons a t ih =>
    intro seen h
    simp only [firstDedupGo]
    rw [if_pos (h a (List.mem_cons_self _ _))]
    exact ih seen (fun x hx => h x (List.mem_cons_of_mem _ hx))

theorem firstDedupGo_append (cols : List String) : ∀ (rest seen : List String),
    cols.Nodup → (∀ x ∈ cols, x ∉ seen) → (∀ x ∈ rest, x ∈ cols ∨ x ∈ seen) →
    firstDedupGo (cols ++ rest) seen = cols := by
  induction cols with
  | nil =>
    intro rest seen _ _ h3
    rw [List.nil_append]
    exact firstDedupGo_of_subset rest seen (fun x hx => (h3 x hx).resolve_left (by simp))
  | cons a cs ih =>
    intro rest seen hnd hdisj h3
    rw [List.cons_append]
    simp only [firstDedupGo]
    rw [if_neg (hdisj a (List.mem_cons_self _ _))]
    rw [List.nodup_cons] at hnd
    congr 1
    apply ih rest (a :: seen) hnd.2
    · intro x hx
      rw [List.mem_cons]
      push_neg
      exact ⟨fun he => hnd.1 (he ▸ hx), hdisj x (List.mem_cons_of_mem _ hx)⟩
    · intro x hx
      rcases h3 x hx with h4 | h4
      · rcases List.mem_cons.mp h4 with rfl | h5
        · exact Or.inr (List.mem_cons_self _ _)
        · exact Or.inl h5
      · exact Or.inr (List.mem_cons_of_mem _ h4)

theorem zip_lookup_map : ∀ (cs : List String) (xs : List Cell), cs.Nodup →
    cs.length = xs.length →
    cs.map (fun c => ((cs.zip xs).lookup c).getD Cell.nan) = xs := by
  intro cs
  induction cs with
  | nil =>
    intro xs _ hlen
    cases xs with
    | nil => rfl
    | cons x t => simp at hlen
  | cons a cs' ih =>
    intro xs hnd hlen
    cases xs with
    | nil => simp at hlen
    | cons x xs' =>
      rw [List.nodup_cons] at hnd
      rw [List.zip_cons_cons, List.map_cons]
      rw [show (((a, x) :: cs'.zip xs').lookup a).getD Cell.nan = x by
        simp [List.lookup_cons_self]]
      congr 1
      rw [List.map_congr_left (fun c hc => by
        rw [show ((a, x) :: cs'.zip xs').lookup c = (cs'.zip xs').lookup c by
          rw [List.lookup_cons]
          have hne : (c == a) = false := by
            simp only [beq_eq_false_iff_ne, ne_eq]
            intro he
            exact hnd.1 (he ▸ hc)
          rw [hne]])]
      exact ih xs' hnd.2 (by simpa using hlen)

theorem df_records_roundtrip (df : DataFrame) (hnd : df.columns.Nodup)
    (hlen : ∀ r ∈ df.rows, r.length = df.columns.length) (hne : df.rows ≠ []) :
    dfOfRecords (dfToRecords df) = df := by
  obtain ⟨cols, rows⟩ := df
  simp only at hnd hlen hne
  cases rows with
  | nil => exact absurd rfl hne
  | cons r0 rest =>
    have hmapfst : ∀ r ∈ r0 :: rest, (cols.zip r).map Prod.fst = cols := fun r hr =>
      List.map_fst_zip cols r (le_of_eq (hlen r hr).symm)
    have hcols : firstDedup (((r0 :: rest).map (fun r => cols.zip r)).flatMap
        (fun rec => rec.map Prod.fst)) = cols := by
      rw [List.map_cons, List.flatMap_cons, hmapfst r0 (List.mem_cons_self _ _)]
      apply firstDedupGo_append cols _ [] hnd (by simp)
      intro x hx
      rw [List.mem_flatMap] at hx
      obtain ⟨rec, hrec, hx2⟩ := hx
      rw [List.mem_map] at hrec
      obtain ⟨r, hr, rfl⟩ := hrec
      rw [hmapfst r (List.mem_cons_of_mem _ hr)] at hx2
      exact Or.inl hx2
    unfold dfOfRecords dfToRecords firstDedup
    simp only
    rw [show firstDedupGo (((r0 :: rest).map (fun r => cols.zip r)).flatMap
        (fun rec => rec.map Prod.fst)) [] = cols from hcols]
    congr 1
    rw [List.map_map]
    have hrows : ∀ r ∈ r0 :: rest,
        cols.map (fun c => ((cols.zip r).lookup c).getD Cell.nan) = r := fun r hr =>
      zip_lookup_map cols r hnd (hlen r hr).symm
    exact (List.map_congr_left (fun r hr => hrows r hr)).trans (List.map_id _)

theorem cache_roundtrip (c : Cache)
    (h : ∀ p ∈ c, p.2.columns.Nodup ∧ p.2.rows ≠ [] ∧
      ∀ r ∈ p.2.rows, r.length = p.2.columns.length) :
    cacheLoad (cacheDump c) = c := by
  unfold cacheLoad cacheDump
  rw [List.map_map]
  rw [List.map_congr_left (fun p hp => by
    show (p.1, dfOfRecords (dfToRecords p.2)) = p
    rw [df_records_roundtrip p.2 (h p hp).1 (h p hp).2.2 (h p hp).2.1])]
  exact List.map_id _

/-- Counterexample to C4 as stated: a scraped table with zero body rows (here
produced by `get_defensive_stats` itself) loses its column keys through the
records-based JSON roundtrip, so the reloaded table differs from the
original. -/
theorem c4_roundtrip_fails_on_empty_table :
    get_defensive_stats ["TEAM", "PPP"] [] ("Isolation") =
      some ⟨["RANK", "TEAM", "PPP", "Play_Type"], []⟩
  ∧ cacheLoad (cacheDump [(("Isolation" : String),
      (⟨["RANK", "TEAM", "PPP", "Play_Type"], []⟩ : DataFrame))]) =
      [(("Isolation" : String), (⟨[], []⟩ : DataFrame))]
  ∧ cacheLoad (cacheDump [(("Isolation" : String),
      (⟨["RANK", "TEAM", "PPP", "Play_Type"], []⟩ : DataFrame))]) ≠
      [(("Isolation" : String), (⟨["RANK", "TEAM", "PPP", "Play_Type"], []⟩ : DataFrame))] := by
  refine ⟨by decide, by decide, by decide⟩

/-- C4 amended: the records-based JSON dump and reload is the identity on
every pair of caches whose tables each have at least one row (together with
the tabular well-formedness the scraper guarantees: distinct column names and
full rows).  A zero-row table is the one exception forced by the
counterexample: its reload has no columns. -/
theorem c4_cache_roundtrip_nonempty (off defc : Cache)
    (hoff : ∀ p ∈ off, p.2.columns.Nodup ∧ p.2.rows ≠ [] ∧
      ∀ r ∈ p.2.rows, r.length = p.2.columns.length)
    (hdef : ∀ p ∈ defc, p.2.columns.Nodup ∧ p.2.rows ≠ [] ∧
      ∀ r ∈ p.2.rows, r.length = p.2.columns.length) :
    cacheLoad (cacheDump off) = off ∧ cacheLoad (cacheDump defc) = defc :=
  ⟨cache_roundtrip off hoff, cache_roundtrip defc hdef⟩

/-- Witness for C4's amended theorem at the concrete example caches. -/
theorem c4_cache_roundtrip_nonempty_witness :
    cacheLoad (cacheDump offCacheEx) = offCacheEx
  ∧ cacheLoad (cacheDump defCacheEx) = defCacheEx :=
  c4_cache_roundtrip_nonempty offCacheEx defCacheEx (by decide) (by decide)

/-! ## Lemmas on `get_defensive_stats` -/

theorem numericKind_toNumeric (c : Cell) : numericKind (toNumericCell c) = true := by
  cases c with
  | str s =>
    cases h : parseRat s.data <;> simp [toNumericCell, h, numericKind]
  | num v => rfl
  | nan => rfl
  | null => rfl

theorem mapCol_columns (df : DataFrame) (c : String) (f : Cell → Cell) :
    (df.mapCol c f).columns = df.columns := by
  unfold DataFrame.mapCol
  cases df.colIdx c <;> rfl

theorem columns_ite (b : Bool) (df : DataFrame) (cn : String) (f : Cell → Cell) :
    (if b then df.mapCol cn f else df).columns = df.columns := by
  cases b with
  | true => exact mapCol_columns df cn f
  | false => rfl

theorem contains_eq_decide_mem (l : List String) (a : String) :
    l.contains a = decide (a ∈ l) := by
  rw [show l.contains a = l.elem a from rfl, List.elem_eq_mem]

theorem gds_eq (headers : List String) (body : List (List String)) (pt : String) (jp : Nat)
    (hjp : headers.findIdx? (fun x => x = ("PPP" : String)) = some jp)
    (hT : ("TEAM" : String) ∈ headers) (hP : ("PPP" : String) ∈ headers) :
    get_defensive_stats headers body pt = some
      ((DataFrame.select
          ⟨"RANK" :: headers,
            (((List.range body.length).zip body).map
              (fun p => Cell.num ((p.1 : ℚ) + 1) :: p.2.map Cell.str)).map
              (fun r => r.set (jp + 1) (toNumericCell (r.getD (jp + 1) Cell.null)))⟩
          ["RANK", "TEAM", "PPP"]).addConstCol ("Play_Type") (Cell.str pt)) := by
  have hTc : (("RANK" :: headers).contains ("TEAM")) = true := by
    rw [contains_eq_decide_mem]
    simp [hT]
  have hPc : (("RANK" :: headers).contains ("PPP")) = true := by
    rw [contains_eq_decide_mem]
    simp [hP]
  have hidx_ppp : DataFrame.colIdx
      ⟨"RANK" :: headers, (((List.range body.length).zip body).map
        (fun p => Cell.num ((p.1 : ℚ) + 1) :: p.2.map Cell.str))⟩ ("PPP") = some (jp + 1) := by
    unfold DataFrame.colIdx
    dsimp only
    rw [List.findIdx?_cons]
    rw [if_neg (by simp)]
    rw [List.findIdx?_succ, hjp]
    rfl
  unfold get_defensive_stats
  dsimp only
  rw [columns_ite, hPc]
  dsimp only
  rw [hTc]
  rw [if_neg (by decide)]
  rw [if_pos rfl]
  unfold DataFrame.mapCol
  rw [hidx_ppp]

theorem gds_none (headers : List String) (body : List (List String)) (pt : String)
    (h : ("TEAM" : String) ∉ headers ∨ ("PPP" : String) ∉ headers) :
    get_defensive_stats headers body pt = none := by
  unfold get_defensive_stats
  dsimp only
  rw [columns_ite]
  dsimp only
  rcases h with hT | hP
  · have hTc : (("RANK" :: headers).contains ("TEAM")) = false := by
      have hnm : ("TEAM" : String) ∉ ("RANK" :: headers) := by
        intro hmem
        rcases List.mem_cons.mp hmem with he | hm
        · exact absurd he (by decide)
        · exact hT hm
      rw [contains_eq_decide_mem]
      simpa using hnm
    rw [hTc]
    rw [if_pos (by simp)]
  · have hPc : (("RANK" :: headers).contains ("PPP")) = false := by
      have hnm : ("PPP" : String) ∉ ("RANK" :: headers) := by
        intro hmem
        rcases List.mem_cons.mp hmem with he | hm
        · exact absurd he (by decide)
        · exact hP hm
      rw [contains_eq_decide_mem]
      simpa using hnm
    rw [hPc]
    rw [if_pos (by simp)]

theorem rowCell_mk (headers : List String) (R : List (List Cell)) (r : List Cell)
    (c : String) (j : Nat)
    (hj : ("RANK" :: headers).findIdx? (fun x => x = c) = some j) :
    rowCell ⟨"RANK" :: headers, R⟩ r c = r.getD j Cell.null := by
  unfold rowCell DataFrame.colIdx
  dsimp only
  rw [hj]

theorem getD_quad_zero (a b c d e : Cell) : ([a, b, c] ++ [d]).getD 0 e = a := rfl

theorem getD_quad_two (a b c d e : Cell) : ([a, b, c] ++ [d]).getD 2 e = c := rfl

theorem getD_quad_three (a b c d e : Cell) : ([a, b, c] ++ [d]).getD 3 e = d := rfl

/-- C5: on a scraped defensive table, `get_defensive_stats` returns `None`
when TEAM or PPP is missing from the headers; otherwise it yields a table
with exactly the columns RANK, TEAM, PPP, Play_Type, one output row per body
row, the RANK column holding the consecutive values 1 through n in row order,
and every PPP cell coerced to numeric dtype. -/
theorem c5_defensive_stats_shape (headers : List String) (body : List (List String))
    (pt : String) (hnd : headers.Nodup) (hrk : ("RANK" : String) ∉ headers)
    (hlen : ∀ r ∈ body, r.length = headers.length) :
    ((("TEAM" : String) ∉ headers ∨ ("PPP" : String) ∉ headers) →
      get_defensive_stats headers body pt = none)
  ∧ (("TEAM" : String) ∈ headers → ("PPP" : String) ∈ headers →
      ∃ df, get_defensive_stats headers body pt = some df
        ∧ df.columns = ["RANK", "TEAM", "PPP", "Play_Type"]
        ∧ df.rows.length = body.length
        ∧ rankColumn df = (List.range body.length).map (fun i : Nat => Cell.num ((i : ℚ) + 1))
        ∧ (∀ r ∈ df.rows, numericKind (r.getD 2 Cell.null) = true)
        ∧ (∀ r ∈ df.rows, r.getD 3 Cell.null = Cell.str pt)) := by
  constructor
  · exact gds_none headers body pt
  · intro hT hP
    obtain ⟨jp, hjp⟩ : ∃ jp, headers.findIdx? (fun x => x = ("PPP" : String)) = some jp :=
      ⟨_, List.findIdx?_eq_some_of_exists ⟨"PPP", hP, by simp⟩⟩
    obtain ⟨jt, hjt⟩ : ∃ jt, headers.findIdx? (fun x => x = ("TEAM" : String)) = some jt :=
      ⟨_, List.findIdx?_eq_some_of_exists ⟨"TEAM", hT, by simp⟩⟩
    have hjp_lt : jp < headers.length :=
      (List.findIdx?_eq_some_iff_findIdx_eq.mp hjp).1
    have hfind_rank : ("RANK" :: headers).findIdx? (fun x => x = ("RANK" : String)) = some 0 := by
      rw [List.findIdx?_cons, if_pos (by simp)]
    have hfind_team : ("RANK" :: headers).findIdx? (fun x => x = ("TEAM" : String)) =
        some (jt + 1) := by
      rw [List.findIdx?_cons, if_neg (by simp), List.findIdx?_succ, hjt]
      rfl
    have hfind_ppp : ("RANK" :: headers).findIdx? (fun x => x = ("PPP" : String)) =
        some (jp + 1) := by
      rw [List.findIdx?_cons, if_neg (by simp), List.findIdx?_succ, hjp]
      rfl
    have hsel : ∀ (R : List (List Cell)) (r : List Cell),
        (["RANK", "TEAM", "PPP"].map (fun c => rowCell ⟨"RANK" :: headers, R⟩ r c)) =
        [r.getD 0 Cell.null, r.getD (jt + 1) Cell.null, r.getD (jp + 1) Cell.null] := by
      intro R r
      rw [List.map_cons, List.map_cons, List.map_cons, List.map_nil]
      rw [rowCell_mk headers R r _ 0 hfind_rank]
      rw [rowCell_mk headers R r _ (jt + 1) hfind_team]
      rw [rowCell_mk headers R r _ (jp + 1) hfind_ppp]
    have hbaselen : ∀ p ∈ (List.range body.length).zip body,
        (Cell.num ((p.1 : ℚ) + 1) :: p.2.map Cell.str).length = headers.length + 1 := by
      intro p hp
      have hmem : p.2 ∈ body := (List.of_mem_zip hp).2
      simp [hlen p.2 hmem]
    refine ⟨_, gds_eq headers body pt jp hjp hT hP, ?_, ?_, ?_, ?_, ?_⟩
    · rfl
    · simp [DataFrame.select, DataFrame.addConstCol, List.length_zip]
    · unfold rankColumn
      dsimp only [DataFrame.select, DataFrame.addConstCol]
      rw [List.map_map, List.map_map, List.map_map, List.map_map]
      rw [List.map_congr_left (g := fun p : Nat × List String => Cell.num ((p.1 : ℚ) + 1))
        (fun p hp => by
          dsimp only [Function.comp]
          rw [hsel]
          rw [getD_quad_zero]
          rw [List.getD_eq_getElem?_getD, List.getElem?_set_ne (by omega)]
          simp)]
      rw [show (fun p : Nat × List String => Cell.num ((p.1 : ℚ) + 1)) =
          (fun i : Nat => Cell.num ((i : ℚ) + 1)) ∘ Prod.fst from rfl]
      rw [← List.map_map]
      rw [List.map_fst_zip _ _ (by simp)]
    · intro r' hr'
      dsimp only [DataFrame.select, DataFrame.addConstCol] at hr'
      rw [List.mem_map] at hr'
      obtain ⟨r1, hr1, rfl⟩ := hr'
      rw [List.mem_map] at hr1
      obtain ⟨r2, hr2, rfl⟩ := hr1
      rw [List.mem_map] at hr2
      obtain ⟨r3, hr3, rfl⟩ := hr2
      rw [List.mem_map] at hr3
      obtain ⟨p, hp, rfl⟩ := hr3
      rw [hsel]
      rw [getD_quad_two]
      rw [List.getD_eq_getElem?_getD, List.getElem?_set_self (by
        rw [hbaselen p hp]
        omega)]
      exact numericKind_toNumeric _
    · intro r' hr'
      dsimp only [DataFrame.select, DataFrame.addConstCol] at hr'
      rw [List.mem_map] at hr'
      obtain ⟨r1, hr1, rfl⟩ := hr'
      rw [List.mem_map] at hr1
      obtain ⟨r2, hr2, rfl⟩ := hr1
      rw [hsel]
      rw [getD_quad_three]

/-- Witness for C5 at concrete scraped headers and body rows, exercising both
the missing-column branch and the successful branch. -/
theorem c5_defensive_stats_shape_witness :
    (get_defensive_stats ["FOO", "BAR"] [["a", "b"]] ("Isolation") = none)
  ∧ (∃ df, get_defensive_stats ["TEAM", "X", "PPP"]
        [["Boston", "y", "0.9"], ["LAL", "z", "1.1"]] ("Isolation") = some df
      ∧ df.columns = ["RANK", "TEAM", "PPP", "Play_Type"]
      ∧ df.rows.length = ([["Boston", "y", "0.9"], ["LAL", "z", "1.1"]] :
          List (List String)).length
      ∧ rankColumn df = (List.range ([["Boston", "y", "0.9"], ["LAL", "z", "1.1"]] :
          List (List String)).length).map (fun i : Nat => Cell.num ((i : ℚ) + 1))
      ∧ (∀ r ∈ df.rows, numericKind (r.getD 2 Cell.null) = true)
      ∧ (∀ r ∈ df.rows, r.getD 3 Cell.null = Cell.str ("Isolation"))) :=
  ⟨(c5_defensive_stats_shape ["FOO", "BAR"] [["a", "b"]] ("Isolation")
      (by decide) (by decide) (by decide)).1 (by decide),
   (c5_defensive_stats_shape ["TEAM", "X", "PPP"]
      [["Boston", "y", "0.9"], ["LAL", "z", "1.1"]] ("Isolation")
      (by decide) (by decide) (by decide)).2 (by decide) (by decide)⟩
